import Mathlib

/-!
Verification of the `aimakerspace` in-memory vector store and text splitters
(`enhanced_vectordatabase.py`, `pdf_utils.py`, `youtube_utils.py`).

Modelling conventions:
* Python floats are modelled as exact rationals (`ℚ`).
* Python dictionaries are modelled as association lists in insertion order:
  assignment replaces the first matching key in place, otherwise appends.
* Python metadata values are modelled by `PyVal` (numbers, strings, lists).
* Python exceptions are modelled by `Except PyErr`; the exception class is
  kept (`ValueError`, `TypeError`, `KeyError`, `AssertionError`) while the
  dynamic parts of some messages are simplified to fixed strings.
* Scores returned by the distance metrics have the exact form `d / √m` with
  `d m : ℚ`; the structure `Score` records the pair `(d, m)` and denotes the
  real number `d / √m` (see `Score.val`).  `Score.leB` is a computable
  comparison that is proved to agree with the real-number order
  (`Score.leB_iff`), so sorting scores is fully executable.
-/

/-- Python runtime values that occur as metadata in this repository:
numbers, strings, and (possibly nested) lists of such values. -/
inductive PyVal where
  | num (q : ℚ)
  | str (s : String)
  | list (vs : List PyVal)

mutual

/-- Python `==` on `PyVal`: structural equality, `False` across types. -/
def PyVal.pyEq : PyVal → PyVal → Bool
  | .num a, .num b => a == b
  | .str a, .str b => a == b
  | .list a, .list b => PyVal.pyEqList a b
  | .num _, .str _ => false
  | .num _, .list _ => false
  | .str _, .num _ => false
  | .str _, .list _ => false
  | .list _, .num _ => false
  | .list _, .str _ => false

/-- Python `==` on lists of values: elementwise equality. -/
def PyVal.pyEqList : List PyVal → List PyVal → Bool
  | [], [] => true
  | a :: as, b :: bs => PyVal.pyEq a b && PyVal.pyEqList as bs
  | [], _ :: _ => false
  | _ :: _, [] => false

end

mutual

/-- Decidable equality for `PyVal` (hand-rolled because of the nested list). -/
def PyVal.decEq : (a b : PyVal) → Decidable (a = b)
  | .num a, .num b =>
    if h : a = b then .isTrue (by rw [h]) else .isFalse (by intro hc; injection hc; contradiction)
  | .str a, .str b =>
    if h : a = b then .isTrue (by rw [h]) else .isFalse (by intro hc; injection hc; contradiction)
  | .list a, .list b =>
    match PyVal.decEqList a b with
    | .isTrue h => .isTrue (by rw [h])
    | .isFalse h => .isFalse (by intro hc; injection hc; contradiction)
  | .num _, .str _ => .isFalse (fun h => nomatch h)
  | .num _, .list _ => .isFalse (fun h => nomatch h)
  | .str _, .num _ => .isFalse (fun h => nomatch h)
  | .str _, .list _ => .isFalse (fun h => nomatch h)
  | .list _, .num _ => .isFalse (fun h => nomatch h)
  | .list _, .str _ => .isFalse (fun h => nomatch h)

/-- Decidable equality for lists of `PyVal`. -/
def PyVal.decEqList : (a b : List PyVal) → Decidable (a = b)
  | [], [] => .isTrue rfl
  | [], _ :: _ => .isFalse (fun h => nomatch h)
  | _ :: _, [] => .isFalse (fun h => nomatch h)
  | a :: as, b :: bs =>
    match PyVal.decEq a b, PyVal.decEqList as bs with
    | .isTrue h1, .isTrue h2 => .isTrue (by rw [h1, h2])
    | .isFalse h1, _ => .isFalse (by intro hc; injection hc with hh _; exact h1 hh)
    | .isTrue _, .isFalse h2 => .isFalse (by intro hc; injection hc with _ ht; exact h2 ht)

end

instance : DecidableEq PyVal := PyVal.decEq

/-- Three-way comparison on rationals, as Python compares numbers. -/
def pyCmpQ (a b : ℚ) : Ordering :=
  if a < b then .lt else if a = b then .eq else .gt

/-- Three-way comparison on strings (lexicographic by code point, as Python). -/
def pyCmpStr (a b : String) : Ordering :=
  if a < b then .lt else if a = b then .eq else .gt

mutual

/-- Python rich comparison on `PyVal`: numbers and strings compare within
their own type, lists compare lexicographically; comparing values of
different types raises `TypeError`, modelled as `none`. -/
def PyVal.pyCmp : PyVal → PyVal → Option Ordering
  | .num a, .num b => some (pyCmpQ a b)
  | .str a, .str b => some (pyCmpStr a b)
  | .list a, .list b => PyVal.pyCmpList a b
  | .num _, .str _ => none
  | .num _, .list _ => none
  | .str _, .num _ => none
  | .str _, .list _ => none
  | .list _, .num _ => none
  | .list _, .str _ => none

/-- Python list comparison: skip `==`-equal prefixes, then compare the first
differing elements; a strict prefix is smaller. -/
def PyVal.pyCmpList : List PyVal → List PyVal → Option Ordering
  | [], [] => some .eq
  | [], _ :: _ => some .lt
  | _ :: _, [] => some .gt
  | a :: as, b :: bs =>
    if PyVal.pyEq a b then PyVal.pyCmpList as bs else PyVal.pyCmp a b

end

/-- Python `a < b` (`none` models `TypeError`). -/
def PyVal.pyLt (a b : PyVal) : Option Bool :=
  (PyVal.pyCmp a b).map (fun o => o == Ordering.lt)

/-- Python `a > b` (`none` models `TypeError`). -/
def PyVal.pyGt (a b : PyVal) : Option Bool :=
  (PyVal.pyCmp a b).map (fun o => o == Ordering.gt)

/-- Python `a <= b` (`none` models `TypeError`). -/
def PyVal.pyLe (a b : PyVal) : Option Bool :=
  (PyVal.pyCmp a b).map (fun o => o == Ordering.lt || o == Ordering.eq)

/-- Python `a >= b` (`none` models `TypeError`). -/
def PyVal.pyGe (a b : PyVal) : Option Bool :=
  (PyVal.pyCmp a b).map (fun o => o == Ordering.gt || o == Ordering.eq)

/-- Python `v in xs` for a list `xs`: membership up to `==`. -/
def PyVal.pyMem (v : PyVal) (xs : List PyVal) : Bool :=
  xs.any (fun w => PyVal.pyEq v w)

/-- Python `v in container`: list membership, substring test for strings,
`TypeError` (`none`) when the container is not iterable or the operand
types do not fit. -/
def PyVal.pyIn (v container : PyVal) : Option Bool :=
  match container with
  | .list xs => some (PyVal.pyMem v xs)
  | .str s =>
    match v with
    | .str t => some (decide (t.toList <:+: s.toList))
    | _ => none
  | .num _ => none

/-- Lookup in a Python dictionary modelled as an association list
(`d.get(k)` / `k in d` / `d[k]`). -/
def dictGet? {α : Type} : List (String × α) → String → Option α
  | [], _ => none
  | (k', v) :: rest, k => if k' = k then some v else dictGet? rest k

/-- Assignment `d[k] = v` on a Python dictionary: replaces the value in
place when the key is present, otherwise appends the new binding. -/
def dictSet {α : Type} : List (String × α) → String → α → List (String × α)
  | [], k, v => [(k, v)]
  | (k', v') :: rest, k, v =>
    if k' = k then (k, v) :: rest else (k', v') :: dictSet rest k v

/-- Python `d.update(upd)`: assign every binding of `upd` into `d`, in order. -/
def dictUpdate {α : Type} (d upd : List (String × α)) : List (String × α) :=
  upd.foldl (fun acc kv => dictSet acc kv.1 kv.2) d

/-- Python exceptions raised by this code, by exception class. -/
inductive PyErr where
  | valueError (msg : String)
  | typeError (msg : String)
  | keyError (msg : String)
  | assertionError (msg : String)
deriving DecidableEq, Repr

/-- Exact representation of the real number `num / √den`.  Every score
produced by the four distance metrics has this shape: plain rationals are
`⟨q, 1⟩`, the euclidean norm `√s` is `⟨s, s⟩` (since `s / √s = √s`), and
cosine similarity is `⟨dot, ‖a‖² · ‖b‖²⟩`. -/
structure Score where
  num : ℚ
  den : ℚ
deriving DecidableEq, Repr

/-- The real number denoted by a `Score`. -/
noncomputable def Score.val (x : Score) : ℝ :=
  (x.num : ℝ) / Real.sqrt (x.den : ℝ)

/-- A plain rational as a `Score` (`q / √1 = q`). -/
def Score.ofRat (q : ℚ) : Score := ⟨q, 1⟩

/-- The square root `√s` of a nonnegative rational as a `Score`
(`s / √s = √s`). -/
def Score.sqrtQ (s : ℚ) : Score := ⟨s, s⟩

/-- The quotient `d / √m` as a `Score`. -/
def Score.divSqrt (d m : ℚ) : Score := ⟨d, m⟩

/-- Computable comparison of two scores, by sign analysis and squaring;
`Score.leB_iff` proves it agrees with the real order on denotations. -/
def Score.leB (x y : Score) : Bool :=
  if x.den ≤ 0 then
    if y.den ≤ 0 then true
    else decide ((0 : ℚ) ≤ y.num)
  else if y.den ≤ 0 then decide (x.num ≤ (0 : ℚ))
  else if x.num ≤ 0 then
    if (0 : ℚ) ≤ y.num then true
    else decide (y.num ^ 2 * x.den ≤ x.num ^ 2 * y.den)
  else if y.num ≤ 0 then false
  else decide (x.num ^ 2 * y.den ≤ y.num ^ 2 * x.den)

theorem Score.val_ofRat (q : ℚ) : (Score.ofRat q).val = (q : ℝ) := by
  simp [Score.ofRat, Score.val]

theorem Score.val_sqrtQ (s : ℚ) : (Score.sqrtQ s).val = Real.sqrt (s : ℝ) := by
  simp only [Score.sqrtQ, Score.val]
  exact Real.div_sqrt

theorem Score.val_divSqrt (d m : ℚ) :
    (Score.divSqrt d m).val = (d : ℝ) / Real.sqrt (m : ℝ) := rfl

/-- The computable score comparison agrees with the real-number order. -/
theorem Score.leB_iff (x y : Score) : x.leB y = true ↔ x.val ≤ y.val := by
  obtain ⟨d1, m1⟩ := x
  obtain ⟨d2, m2⟩ := y
  simp only [Score.leB, Score.val]
  split_ifs with h1 h2 h3 h4 h5 h6
  · -- m1 ≤ 0, m2 ≤ 0 : both denotations are 0
    have e1 : Real.sqrt (m1 : ℝ) = 0 := Real.sqrt_eq_zero'.mpr (by exact_mod_cast h1)
    have e2 : Real.sqrt (m2 : ℝ) = 0 := Real.sqrt_eq_zero'.mpr (by exact_mod_cast h2)
    simp [e1, e2]
  · -- m1 ≤ 0 < m2
    have e1 : Real.sqrt (m1 : ℝ) = 0 := Real.sqrt_eq_zero'.mpr (by exact_mod_cast h1)
    have p2 : (0 : ℝ) < Real.sqrt (m2 : ℝ) :=
      Real.sqrt_pos.mpr (by exact_mod_cast lt_of_not_le h2)
    rw [e1, div_zero, decide_eq_true_iff, le_div_iff₀ p2, zero_mul]
    exact ⟨fun h => by exact_mod_cast h, fun h => by exact_mod_cast h⟩
  · -- m2 ≤ 0 < m1
    have e2 : Real.sqrt (m2 : ℝ) = 0 := Real.sqrt_eq_zero'.mpr (by exact_mod_cast h3)
    have p1 : (0 : ℝ) < Real.sqrt (m1 : ℝ) :=
      Real.sqrt_pos.mpr (by exact_mod_cast lt_of_not_le h1)
    rw [e2, div_zero, decide_eq_true_iff, div_le_iff₀ p1, zero_mul]
    exact ⟨fun h => by exact_mod_cast h, fun h => by exact_mod_cast h⟩
  · -- 0 < m1, 0 < m2, d1 ≤ 0 ≤ d2
    have p1 : (0 : ℝ) < Real.sqrt (m1 : ℝ) :=
      Real.sqrt_pos.mpr (by exact_mod_cast lt_of_not_le h1)
    have p2 : (0 : ℝ) < Real.sqrt (m2 : ℝ) :=
      Real.sqrt_pos.mpr (by exact_mod_cast lt_of_not_le h3)
    have hx : (d1 : ℝ) / Real.sqrt (m1 : ℝ) ≤ 0 :=
      div_nonpos_iff.mpr (Or.inr ⟨by exact_mod_cast h4, p1.le⟩)
    have hy : (0 : ℝ) ≤ (d2 : ℝ) / Real.sqrt (m2 : ℝ) :=
      div_nonneg (by exact_mod_cast h5) p2.le
    simp [le_trans hx hy]
  · -- 0 < m1, 0 < m2, d1 ≤ 0, d2 < 0
    have hm1 : (0 : ℝ) < (m1 : ℝ) := by exact_mod_cast lt_of_not_le h1
    have hm2 : (0 : ℝ) < (m2 : ℝ) := by exact_mod_cast lt_of_not_le h3
    have p1 : (0 : ℝ) < Real.sqrt (m1 : ℝ) := Real.sqrt_pos.mpr hm1
    have p2 : (0 : ℝ) < Real.sqrt (m2 : ℝ) := Real.sqrt_pos.mpr hm2
    have s1 : Real.sqrt (m1 : ℝ) ^ 2 = (m1 : ℝ) := Real.sq_sqrt hm1.le
    have s2 : Real.sqrt (m2 : ℝ) ^ 2 = (m2 : ℝ) := Real.sq_sqrt hm2.le
    have hd1 : (d1 : ℝ) ≤ 0 := by exact_mod_cast h4
    have hd2 : (d2 : ℝ) < 0 := by exact_mod_cast lt_of_not_le h5
    rw [decide_eq_true_iff, div_le_div_iff₀ p1 p2]
    constructor
    · intro h
      have h' : (d2 : ℝ) ^ 2 * (m1 : ℝ) ≤ (d1 : ℝ) ^ 2 * (m2 : ℝ) := by exact_mod_cast h
      nlinarith [mul_pos p1 p2, mul_nonneg (neg_nonneg.mpr hd1) p2.le,
        mul_pos (neg_pos.mpr hd2) p1]
    · intro h
      have h' : (d2 : ℝ) ^ 2 * (m1 : ℝ) ≤ (d1 : ℝ) ^ 2 * (m2 : ℝ) := by
        nlinarith [mul_pos (neg_pos.mpr hd2) p1, mul_nonneg (neg_nonneg.mpr hd1) p2.le]
      exact_mod_cast h'
  · -- 0 < m1, 0 < m2, 0 < d1, d2 ≤ 0 : strictly greater, comparison is false
    have hm1 : (0 : ℝ) < (m1 : ℝ) := by exact_mod_cast lt_of_not_le h1
    have hm2 : (0 : ℝ) < (m2 : ℝ) := by exact_mod_cast lt_of_not_le h3
    have p1 : (0 : ℝ) < Real.sqrt (m1 : ℝ) := Real.sqrt_pos.mpr hm1
    have p2 : (0 : ℝ) < Real.sqrt (m2 : ℝ) := Real.sqrt_pos.mpr hm2
    have hd1 : (0 : ℝ) < (d1 : ℝ) := by exact_mod_cast lt_of_not_le h4
    have hd2 : (d2 : ℝ) ≤ 0 := by exact_mod_cast h6
    have hx : (0 : ℝ) < (d1 : ℝ) / Real.sqrt (m1 : ℝ) := div_pos hd1 p1
    have hy : (d2 : ℝ) / Real.sqrt (m2 : ℝ) ≤ 0 :=
      div_nonpos_iff.mpr (Or.inr ⟨hd2, p2.le⟩)
    simp only [false_iff, not_le]
    exact lt_of_le_of_lt hy hx
  · -- 0 < m1, 0 < m2, 0 < d1, 0 < d2
    have hm1 : (0 : ℝ) < (m1 : ℝ) := by exact_mod_cast lt_of_not_le h1
    have hm2 : (0 : ℝ) < (m2 : ℝ) := by exact_mod_cast lt_of_not_le h3
    have p1 : (0 : ℝ) < Real.sqrt (m1 : ℝ) := Real.sqrt_pos.mpr hm1
    have p2 : (0 : ℝ) < Real.sqrt (m2 : ℝ) := Real.sqrt_pos.mpr hm2
    have s1 : Real.sqrt (m1 : ℝ) ^ 2 = (m1 : ℝ) := Real.sq_sqrt hm1.le
    have s2 : Real.sqrt (m2 : ℝ) ^ 2 = (m2 : ℝ) := Real.sq_sqrt hm2.le
    have hd1 : (0 : ℝ) < (d1 : ℝ) := by exact_mod_cast lt_of_not_le h4
    have hd2 : (0 : ℝ) < (d2 : ℝ) := by exact_mod_cast lt_of_not_le h6
    rw [decide_eq_true_iff, div_le_div_iff₀ p1 p2]
    constructor
    · intro h
      have h' : (d1 : ℝ) ^ 2 * (m2 : ℝ) ≤ (d2 : ℝ) ^ 2 * (m1 : ℝ) := by exact_mod_cast h
      nlinarith [mul_pos hd1 p2, mul_pos hd2 p1]
    · intro h
      have h' : (d1 : ℝ) ^ 2 * (m2 : ℝ) ≤ (d2 : ℝ) ^ 2 * (m1 : ℝ) := by
        nlinarith [mul_pos hd1 p2, mul_pos hd2 p1]
      exact_mod_cast h'

/-- Totality of the score comparison. -/
theorem Score.leB_total (x y : Score) : (x.leB y || y.leB x) = true := by
  rcases le_total x.val y.val with h | h
  · rw [Bool.or_eq_true]; exact Or.inl ((Score.leB_iff x y).mpr h)
  · rw [Bool.or_eq_true]; exact Or.inr ((Score.leB_iff y x).mpr h)

/-- Transitivity of the score comparison. -/
theorem Score.leB_trans {x y z : Score} (h1 : x.leB y = true) (h2 : y.leB z = true) :
    x.leB z = true := by
  rw [Score.leB_iff] at h1 h2 ⊢
  exact le_trans h1 h2

/-- Metadata attached to one stored document: a Python dictionary from
string keys to values. -/
abbrev Meta := List (String × PyVal)

/-- The shape of one value of a metadata filter: either a Python dictionary
(an operator mapping, handled by the range/membership operators) or a plain
value (a list means membership, anything else exact equality). -/
inductive FVal where
  | op (ops : List (String × PyVal))
  | plain (v : PyVal)
deriving DecidableEq

/-- A metadata filter: a Python dictionary from keys to filter values. -/
abbrev MFilter := List (String × FVal)

/-- The two parallel mappings of `EnhancedVectorDatabase`:
key → vector and key → metadata. -/
structure EnhancedVectorDatabase where
  vectors : List (String × List ℚ)
  metadata : List (String × Meta)
deriving DecidableEq

/-- `np.dot` on equal-length vectors. -/
def dotQ (a b : List ℚ) : ℚ := (List.zipWith (· * ·) a b).sum

/-- Elementwise difference `a - b`. -/
def subQ (a b : List ℚ) : List ℚ := List.zipWith (· - ·) a b

/-- The squared euclidean norm `Σ aᵢ²` (so `np.linalg.norm a = √(sumSqQ a)`). -/
def sumSqQ (a : List ℚ) : ℚ := dotQ a a

/-- `np.sum (np.abs a)`. -/
def sumAbsQ (a : List ℚ) : ℚ := (a.map (fun q => |q|)).sum

/-- `cosine_similarity`: dot product over the product of the norms, i.e. the
real number `dot / (√Σaᵢ² · √Σbᵢ²) = dot / √(Σaᵢ² · Σbᵢ²)`
(see `cosine_similarity_val`). -/
def cosine_similarity (vector_a vector_b : List ℚ) : Score :=
  Score.divSqrt (dotQ vector_a vector_b) (sumSqQ vector_a * sumSqQ vector_b)

/-- `euclidean_distance`: `np.linalg.norm (a - b) = √(Σ (aᵢ-bᵢ)²)`. -/
def euclidean_distance (vector_a vector_b : List ℚ) : Score :=
  Score.sqrtQ (sumSqQ (subQ vector_a vector_b))

/-- `manhattan_distance`: `np.sum (np.abs (a - b))`. -/
def manhattan_distance (vector_a vector_b : List ℚ) : Score :=
  Score.ofRat (sumAbsQ (subQ vector_a vector_b))

/-- `dot_product_similarity`: the raw inner product. -/
def dot_product_similarity (vector_a vector_b : List ℚ) : Score :=
  Score.ofRat (dotQ vector_a vector_b)

/-- The `self.distance_metrics` dictionary set up in `__init__`. -/
def distance_metrics : List (String × (List ℚ → List ℚ → Score)) :=
  [("cosine", cosine_similarity),
   ("euclidean", euclidean_distance),
   ("manhattan", manhattan_distance),
   ("dot_product", dot_product_similarity)]

/-- The metric names, in dictionary order (`list (self.distance_metrics.keys())`). -/
def availableMetricNames : List String := distance_metrics.map Prod.fst

/-- The `ValueError` message for an unrecognized metric (the quote characters
of Python's list repr are elided). -/
def unknownMetricMessage (distance_measure : String) : String :=
  "Unknown distance measure: " ++ distance_measure ++
    ". Available: [cosine, euclidean, manhattan, dot_product]"

/-- `insert`: always assigns the vector; assigns the metadata only when the
argument is truthy (present and non-empty), per `if metadata:`. -/
def EnhancedVectorDatabase.insert (db : EnhancedVectorDatabase) (key : String)
    (vector : List ℚ) (metadata : Option Meta) : EnhancedVectorDatabase :=
  let db' := { db with vectors := dictSet db.vectors key vector }
  match metadata with
  | some m =>
    if m.isEmpty then db'
    else { db' with metadata := dictSet db'.metadata key m }
  | none => db'

/-- `retrieve_from_key`: `(self.vectors.get(key, None), self.metadata.get(key, {}))`.
The method only reads; the returned second component is the (unchanged) store. -/
def EnhancedVectorDatabase.retrieve_from_key (db : EnhancedVectorDatabase)
    (key : String) : (Option (List ℚ) × Meta) × EnhancedVectorDatabase :=
  ((dictGet? db.vectors key, (dictGet? db.metadata key).getD []), db)

/-- The `KeyError` message of `update_metadata` (quote characters elided). -/
def keyNotFoundMessage (key : String) : String :=
  "Key " ++ key ++ " not found in database"

/-- `update_metadata`: merge `new_metadata` into the entry when the key has a
vector (the defaultdict supplies an empty dictionary when metadata is absent),
otherwise raise `KeyError`. -/
def EnhancedVectorDatabase.update_metadata (db : EnhancedVectorDatabase)
    (key : String) (new_metadata : Meta) : Except PyErr EnhancedVectorDatabase :=
  if (dictGet? db.vectors key).isSome then
    .ok { db with
      metadata :=
        dictSet db.metadata key
          (dictUpdate ((dictGet? db.metadata key).getD []) new_metadata) }
  else
    .error (.keyError (keyNotFoundMessage key))

/-- One operator test of `_matches_filter`: when `name` is present in the
operator mapping, evaluate the failure condition against the document value
(`none` raises `TypeError`); the test passes when the failure condition is
false. -/
def opCheck (doc_value : PyVal) (ops : List (String × PyVal)) (name : String)
    (failTest : PyVal → PyVal → Option Bool) : Except PyErr Bool :=
  match dictGet? ops name with
  | none => .ok true
  | some arg =>
    match failTest doc_value arg with
    | none => .error (.typeError "comparison not supported between operand types")
    | some b => .ok (!b)

/-- The six operator tests of the dictionary branch of `_matches_filter`, in
source order, each paired with its failure condition on the document value:
`$gte` fails on `<`, `$lte` on `>`, `$gt` on `<=`, `$lt` on `>=`, `$in` on
`not in`, `$nin` on `in`. -/
def opSpecs : List (String × (PyVal → PyVal → Option Bool)) :=
  [("$gte", PyVal.pyLt),
   ("$lte", PyVal.pyGt),
   ("$gt", PyVal.pyLe),
   ("$lt", PyVal.pyGe),
   ("$in", fun d c => (PyVal.pyIn d c).map (fun b => !b)),
   ("$nin", PyVal.pyIn)]

/-- Run the operator tests in order; the first failing test returns `False`
immediately (as the `return False` statements of the source do). -/
def checkOpsGo (doc_value : PyVal) (ops : List (String × PyVal)) :
    List (String × (PyVal → PyVal → Option Bool)) → Except PyErr Bool
  | [] => .ok true
  | (name, failTest) :: rest => do
    let b ← opCheck doc_value ops name failTest
    if !b then return false else checkOpsGo doc_value ops rest

/-- The six sequential operator tests of the dictionary branch of
`_matches_filter`. -/
def checkOps (doc_value : PyVal) (ops : List (String × PyVal)) : Except PyErr Bool :=
  checkOpsGo doc_value ops opSpecs

/-- The loop body of `_matches_filter` over the filter items: a missing
document key fails; a dictionary filter value runs the operator tests; a list
filter value is a membership test; anything else is an equality test. -/
def matchesFilterGo (doc_metadata : Meta) : MFilter → Except PyErr Bool
  | [] => .ok true
  | (filter_key, filter_value) :: rest =>
    match dictGet? doc_metadata filter_key with
    | none => .ok false
    | some doc_value =>
      match filter_value with
      | .op ops => do
        let pass ← checkOps doc_value ops
        if pass then matchesFilterGo doc_metadata rest else .ok false
      | .plain (.list xs) =>
        if PyVal.pyMem doc_value xs then matchesFilterGo doc_metadata rest
        else .ok false
      | .plain v =>
        if PyVal.pyEq doc_value v then matchesFilterGo doc_metadata rest
        else .ok false

/-- `_matches_filter(key, metadata_filter)`. -/
def EnhancedVectorDatabase.matchesFilter (db : EnhancedVectorDatabase)
    (key : String) (metadata_filter : MFilter) : Except PyErr Bool :=
  matchesFilterGo ((dictGet? db.metadata key).getD []) metadata_filter

/-- The guard `if metadata_filter and not self._matches_filter(...)` of the
search loop: an absent or empty (falsy) filter keeps every entry. -/
def filterKeep (db : EnhancedVectorDatabase) (key : String)
    (metadata_filter : Option MFilter) : Except PyErr Bool :=
  match metadata_filter with
  | none => .ok true
  | some flt => if flt.isEmpty then .ok true else db.matchesFilter key flt

/-- The scan loop of `search`: for every stored vector that the filter keeps,
the triple (key, score, metadata); a `TypeError` raised by the filter
propagates. -/
def scoreEntries (db : EnhancedVectorDatabase) (query_vector : List ℚ)
    (metadata_filter : Option MFilter) (distance_func : List ℚ → List ℚ → Score) :
    List (String × List ℚ) → Except PyErr (List (String × Score × Meta))
  | [] => .ok []
  | (key, vector) :: rest => do
    let keep ← filterKeep db key metadata_filter
    if keep then
      let tail ← scoreEntries db query_vector metadata_filter distance_func rest
      .ok ((key, distance_func query_vector vector,
            (dictGet? db.metadata key).getD []) :: tail)
    else
      scoreEntries db query_vector metadata_filter distance_func rest

/-- The result of `search`: triples with scores, or pairs when
`return_scores` is false. -/
inductive SearchOutput where
  | withScores (results : List (String × Score × Meta))
  | keysOnly (results : List (String × Meta))
deriving DecidableEq

/-- The comparison used to sort the scored triples: by score, reversed for
the metrics where higher is more similar. -/
def searchLeB (reverse_sort : Bool) (x y : String × Score × Meta) : Bool :=
  if reverse_sort then Score.leB y.2.1 x.2.1 else Score.leB x.2.1 y.2.1

/-- `search(query_vector, k, distance_measure, metadata_filter, return_scores)`.
Python's `sorted` is a stable sort, modelled by the (stable) insertion sort
on the same score comparison; the returned store is the unchanged `self`. -/
def EnhancedVectorDatabase.search (db : EnhancedVectorDatabase)
    (query_vector : List ℚ) (k : Nat) (distance_measure : String)
    (metadata_filter : Option MFilter) (return_scores : Bool) :
    Except PyErr (SearchOutput × EnhancedVectorDatabase) :=
  match dictGet? distance_metrics distance_measure with
  | none => .error (.valueError (unknownMetricMessage distance_measure))
  | some distance_func => do
    let scores ← scoreEntries db query_vector metadata_filter distance_func db.vectors
    let reverse_sort : Bool := ["cosine", "dot_product"].contains distance_measure
    let sorted_scores :=
      List.insertionSort (fun x y => searchLeB reverse_sort x y = true) scores
    let results := sorted_scores.take k
    if return_scores then
      return (SearchOutput.withScores results, db)
    else
      return (SearchOutput.keysOnly (results.map (fun r => (r.1, r.2.2))), db)

/-- JSON values, as produced by `json.dump` and consumed by `json.load`. -/
inductive Json where
  | num (q : ℚ)
  | str (s : String)
  | arr (items : List Json)
  | obj (fields : List (String × Json))

mutual

/-- Serialization of a metadata value to JSON (numbers, strings and lists
serialize to themselves). -/
def pyToJson : PyVal → Json
  | .num q => .num q
  | .str s => .str s
  | .list vs => .arr (pyToJsonList vs)

/-- Serialization of a list of metadata values. -/
def pyToJsonList : List PyVal → List Json
  | [] => []
  | v :: rest => pyToJson v :: pyToJsonList rest

end

mutual

/-- Reading a JSON value back as a metadata value.  Nested JSON objects do
not occur in files produced by `save_to_file` and are outside the `PyVal`
model, so they are mapped to an error. -/
def jsonToPy : Json → Except PyErr PyVal
  | .num q => .ok (.num q)
  | .str s => .ok (.str s)
  | .arr items => do
    let vs ← jsonToPyList items
    .ok (.list vs)
  | .obj _ => .error (.typeError "nested object values are outside the model")

/-- Reading a list of JSON values back as metadata values. -/
def jsonToPyList : List Json → Except PyErr (List PyVal)
  | [] => .ok []
  | j :: rest => do
    let v ← jsonToPy j
    let vs ← jsonToPyList rest
    .ok (v :: vs)

end

/-- One metadata dictionary as a JSON object. -/
def metaToJson (m : Meta) : Json :=
  .obj (m.map (fun kv => (kv.1, pyToJson kv.2)))

/-- Reading the fields of one metadata dictionary back from JSON. -/
def jsonToMetaFields : List (String × Json) → Except PyErr Meta
  | [] => .ok []
  | (k, j) :: rest => do
    let v ← jsonToPy j
    let tail ← jsonToMetaFields rest
    .ok ((k, v) :: tail)

/-- Reading one metadata dictionary back from JSON. -/
def jsonToMeta : Json → Except PyErr Meta
  | .obj fields => jsonToMetaFields fields
  | _ => .error (.typeError "metadata entry is not an object")

/-- Reading the items of one vector back from JSON. -/
def jsonToVecItems : List Json → Except PyErr (List ℚ)
  | [] => .ok []
  | .num q :: rest => do
    let tail ← jsonToVecItems rest
    .ok (q :: tail)
  | _ :: _ => .error (.typeError "vector entry is not a number")

/-- Reading one vector back from JSON (`np.array(vector_list)`). -/
def jsonToVec : Json → Except PyErr (List ℚ)
  | .arr items => jsonToVecItems items
  | _ => .error (.typeError "vector is not a list")

/-- The loop `for key, vector_list in data["vectors"].items()`. -/
def loadVectors : List (String × Json) → Except PyErr (List (String × List ℚ))
  | [] => .ok []
  | (k, j) :: rest => do
    let v ← jsonToVec j
    let tail ← loadVectors rest
    .ok ((k, v) :: tail)

/-- The loop `for key, metadata in data["metadata"].items()`. -/
def loadMetadata : List (String × Json) → Except PyErr (List (String × Meta))
  | [] => .ok []
  | (k, j) :: rest => do
    let m ← jsonToMeta j
    let tail ← loadMetadata rest
    .ok ((k, m) :: tail)

/-- `save_to_file`: the JSON object written to disk, with the two top-level
keys `vectors` (key → list of numbers, via `tolist`) and `metadata`. -/
def EnhancedVectorDatabase.save_to_file (db : EnhancedVectorDatabase) : Json :=
  .obj [("vectors", .obj (db.vectors.map (fun kv => (kv.1, Json.arr (kv.2.map Json.num))))),
        ("metadata", .obj (db.metadata.map (fun kv => (kv.1, metaToJson kv.2))))]

/-- `load_from_file`: reads `data["vectors"]` and `data["metadata"]` from the
parsed JSON and rebuilds the two fresh mappings. -/
def EnhancedVectorDatabase.load_from_file (data : Json) :
    Except PyErr EnhancedVectorDatabase := do
  let fields ← match data with
    | .obj fields => Except.ok fields
    | _ => Except.error (PyErr.typeError "file content is not an object")
  let vectorsJson ← match dictGet? fields "vectors" with
    | some v => Except.ok v
    | none => Except.error (PyErr.keyError "vectors")
  let metadataJson ← match dictGet? fields "metadata" with
    | some v => Except.ok v
    | none => Except.error (PyErr.keyError "metadata")
  let vectorFields ← match vectorsJson with
    | .obj fs => Except.ok fs
    | _ => Except.error (PyErr.typeError "vectors is not an object")
  let metadataFields ← match metadataJson with
    | .obj fs => Except.ok fs
    | _ => Except.error (PyErr.typeError "metadata is not an object")
  let vectors ← loadVectors vectorFields
  let metadata ← loadMetadata metadataFields
  pure { vectors := vectors, metadata := metadata }

/-- `PDFTextSplitter` configuration. -/
structure PDFTextSplitter where
  chunk_size : Nat
  chunk_overlap : Nat
  preserve_page_info : Bool
deriving DecidableEq

/-- `PDFTextSplitter.__init__`: asserts `chunk_size > chunk_overlap`. -/
def PDFTextSplitter.init (chunk_size chunk_overlap : Nat)
    (preserve_page_info : Bool) : Except PyErr PDFTextSplitter :=
  if chunk_size > chunk_overlap then
    .ok ⟨chunk_size, chunk_overlap, preserve_page_info⟩
  else
    .error (.assertionError "Chunk size must be greater than chunk overlap")

/-- `YouTubeTextSplitter` configuration. -/
structure YouTubeTextSplitter where
  chunk_size : Nat
  chunk_overlap : Nat
  preserve_timestamps : Bool
deriving DecidableEq

/-- `YouTubeTextSplitter.__init__`: assigns the three fields and performs no
validation whatsoever, so construction never fails. -/
def YouTubeTextSplitter.init (chunk_size chunk_overlap : Nat)
    (preserve_timestamps : Bool) : Except PyErr YouTubeTextSplitter :=
  .ok ⟨chunk_size, chunk_overlap, preserve_timestamps⟩

/-- Python `range(0, stop, step)` for positive `step`: the multiples of
`step` below `stop`. -/
def rangeStep (stop step : Nat) : List Nat :=
  (List.range ((stop + step - 1) / step)).map (· * step)

/-- One chunk produced by a splitter: the text window plus its metadata. -/
structure Chunk where
  text : List Char
  metadata : Meta
deriving DecidableEq

/-- Parsing the page number of one page-marker line:
`int(marker.split('Page ')[1].split(' ---')[0])`; a failing parse is
swallowed by the `try/except` and drops the marker. -/
def parsePageMarker (marker : String) : Option Int :=
  ((((marker.splitOn "Page ").getD 1 "").splitOn " ---").headD "").toInt?

/-- The page-marker refinement of a chunk's metadata: when the chunk text
contains a `--- Page ` marker, the page numbers parsed from its marker lines
are recorded under `pages_spanned` and `primary_page`. -/
def addPageInfo (chunk_metadata : Meta) (chunk_text : List Char) : Meta :=
  if "--- Page ".toList <:+: chunk_text then
    let page_markers :=
      ((String.mk chunk_text).splitOn "\n").filter (fun line => line.startsWith "--- Page ")
    if page_markers.isEmpty then chunk_metadata
    else
      let pages := page_markers.filterMap parsePageMarker
      if pages.isEmpty then chunk_metadata
      else
        dictSet
          (dictSet chunk_metadata "pages_spanned"
            (.list (pages.map (fun p => PyVal.num (p : ℚ)))))
          "primary_page" (.num ((pages.headD 0 : Int) : ℚ))
  else chunk_metadata

/-- `PDFTextSplitter.split`: fixed character windows of `chunk_size` code
points starting at the multiples of `chunk_size - chunk_overlap`, each chunk
carrying the base metadata extended with its window coordinates (and page
markers when `preserve_page_info` is set). -/
def PDFTextSplitter.split (sp : PDFTextSplitter) (text : List Char)
    (metadata : Option Meta) : List Chunk :=
  let base_metadata := metadata.getD []
  ((rangeStep text.length (sp.chunk_size - sp.chunk_overlap)).enum).map (fun p =>
    let i := p.1
    let chunk_start := p.2
    let chunk_text := (text.drop chunk_start).take sp.chunk_size
    let chunk_metadata := dictUpdate base_metadata
      [("chunk_id", .num (i : ℚ)),
       ("chunk_start", .num (chunk_start : ℚ)),
       ("chunk_end", .num ((min (chunk_start + sp.chunk_size) text.length : Nat) : ℚ)),
       ("chunk_size", .num (chunk_text.length : ℚ))]
    let chunk_metadata :=
      if sp.preserve_page_info then addPageInfo chunk_metadata chunk_text
      else chunk_metadata
    { text := chunk_text, metadata := chunk_metadata })

/-! Supporting lemmas about the `Except` monad and the dictionary model. -/

theorem excBindOk {ε α β : Type} (a : α) (f : α → Except ε β) :
    (Except.ok a >>= f) = f a := rfl

theorem excBindError {ε α β : Type} (e : ε) (f : α → Except ε β) :
    ((Except.error e : Except ε α) >>= f) = .error e := rfl

theorem excPure {ε α : Type} (a : α) : (pure a : Except ε α) = .ok a := rfl

theorem dictGet?_dictSet_self {α : Type} (d : List (String × α)) (k : String) (v : α) :
    dictGet? (dictSet d k v) k = some v := by
  induction d with
  | nil => simp [dictSet, dictGet?]
  | cons kv rest ih =>
    obtain ⟨k1, v1⟩ := kv
    by_cases h : k1 = k
    · simp [dictSet, dictGet?, h]
    · simp [dictSet, dictGet?, h, ih]

theorem dictGet?_dictSet_ne {α : Type} (d : List (String × α)) {k k2 : String} (v : α)
    (h : k2 ≠ k) : dictGet? (dictSet d k v) k2 = dictGet? d k2 := by
  have h' : ¬(k = k2) := fun hc => h hc.symm
  induction d with
  | nil => simp [dictSet, dictGet?, h']
  | cons kv rest ih =>
    obtain ⟨k1, v1⟩ := kv
    by_cases h1 : k1 = k
    · subst h1
      simp [dictSet, dictGet?, h']
    · simp [dictSet, dictGet?, h1, ih]

theorem dictGet?_eq_none_of_not_mem {α : Type} (d : List (String × α)) (k : String)
    (h : k ∉ d.map Prod.fst) : dictGet? d k = none := by
  induction d with
  | nil => rfl
  | cons kv rest ih =>
    simp only [List.map_cons, List.mem_cons] at h
    push_neg at h
    obtain ⟨k1, v1⟩ := kv
    have h1 : ¬(k1 = k) := fun hc => h.1 hc.symm
    simp [dictGet?, h1, ih h.2]

theorem mem_of_dictGet?_isSome {α : Type} (d : List (String × α)) (k : String) (v : α)
    (h : dictGet? d k = some v) : k ∈ d.map Prod.fst := by
  induction d with
  | nil => simp [dictGet?] at h
  | cons kv rest ih =>
    obtain ⟨k1, v1⟩ := kv
    by_cases h1 : k1 = k
    · simp [h1]
    · simp only [dictGet?, if_neg h1] at h
      simp [ih h]

theorem dictGet?_dictUpdate_none {α : Type} (d upd : List (String × α)) (k : String)
    (h : dictGet? upd k = none) :
    dictGet? (dictUpdate d upd) k = dictGet? d k := by
  induction upd generalizing d with
  | nil => rfl
  | cons kv rest ih =>
    obtain ⟨k1, v1⟩ := kv
    by_cases h1 : k1 = k
    · simp [dictGet?, h1] at h
    · simp only [dictGet?, if_neg h1] at h
      show dictGet? (dictUpdate (dictSet d k1 v1) rest) k = dictGet? d k
      rw [ih _ h, dictGet?_dictSet_ne _ _ (fun hc => h1 hc.symm)]

theorem dictGet?_dictUpdate_some {α : Type} (d upd : List (String × α)) (k : String) (v : α)
    (hnd : (upd.map Prod.fst).Nodup) (h : dictGet? upd k = some v) :
    dictGet? (dictUpdate d upd) k = some v := by
  induction upd generalizing d with
  | nil => simp [dictGet?] at h
  | cons kv rest ih =>
    obtain ⟨k1, v1⟩ := kv
    simp only [List.map_cons, List.nodup_cons] at hnd
    show dictGet? (dictUpdate (dictSet d k1 v1) rest) k = some v
    by_cases h1 : k1 = k
    · subst h1
      have hv : v1 = v := by simpa [dictGet?] using h
      subst hv
      have hrest : dictGet? rest k1 = none :=
        dictGet?_eq_none_of_not_mem _ _ hnd.1
      rw [dictGet?_dictUpdate_none _ _ _ hrest, dictGet?_dictSet_self]
    · have h2 : dictGet? rest k = some v := by simpa [dictGet?, h1] using h
      exact ih (dictSet d k1 v1) hnd.2 h2

/-! Spec-side predicates describing the filter semantics, and their
equivalence with the embedded `_matches_filter`. -/

/-- One operator of an operator mapping passes on the document value:
whenever the operator key is present, its failure condition evaluates
(without `TypeError`) to false. -/
def opPasses (doc_value : PyVal) (ops : List (String × PyVal)) (name : String)
    (failTest : PyVal → PyVal → Option Bool) : Prop :=
  ∀ arg, dictGet? ops name = some arg → failTest doc_value arg = some false

/-- A document value matches one filter value: an operator mapping applies
each of `$gte`, `$lte`, `$gt`, `$lt`, `$in`, `$nin` that is present as a
range or membership test; a plain list is a membership test; any other
value is an exact equality test. -/
def valueMatches (doc_value : PyVal) : FVal → Prop
  | .op ops =>
    opPasses doc_value ops "$gte" PyVal.pyLt ∧
    opPasses doc_value ops "$lte" PyVal.pyGt ∧
    opPasses doc_value ops "$gt" PyVal.pyLe ∧
    opPasses doc_value ops "$lt" PyVal.pyGe ∧
    opPasses doc_value ops "$in" (fun d c => (PyVal.pyIn d c).map (fun b => !b)) ∧
    opPasses doc_value ops "$nin" PyVal.pyIn
  | .plain (.list xs) => PyVal.pyMem doc_value xs = true
  | .plain v => PyVal.pyEq doc_value v = true

/-- A document's metadata passes a filter: every filter key is present on
the document and its value matches (logical AND over the filter items). -/
def filterAccepts (doc_metadata : Meta) (metadata_filter : MFilter) : Prop :=
  ∀ kv ∈ metadata_filter, ∃ doc_value,
    dictGet? doc_metadata kv.1 = some doc_value ∧ valueMatches doc_value kv.2

theorem opCheck_ok_true_iff (doc_value : PyVal) (ops : List (String × PyVal))
    (name : String) (failTest : PyVal → PyVal → Option Bool) :
    opCheck doc_value ops name failTest = .ok true ↔
      opPasses doc_value ops name failTest := by
  unfold opCheck opPasses
  cases hg : dictGet? ops name with
  | none => simp
  | some arg =>
    cases hf : failTest doc_value arg with
    | none => simp [hf]
    | some b => cases b with
      | false => simp [hf]
      | true => simp [hf]

theorem checkOpsGo_ok_true_iff (doc_value : PyVal) (ops : List (String × PyVal))
    (specs : List (String × (PyVal → PyVal → Option Bool))) :
    checkOpsGo doc_value ops specs = .ok true ↔
      ∀ s ∈ specs, opPasses doc_value ops s.1 s.2 := by
  induction specs with
  | nil => simp [checkOpsGo]
  | cons s rest ih =>
    obtain ⟨name, failTest⟩ := s
    cases hc : opCheck doc_value ops name failTest with
    | error e =>
      have hnp : ¬ opPasses doc_value ops name failTest := by
        intro hp
        have h2 := (opCheck_ok_true_iff doc_value ops name failTest).mpr hp
        rw [hc] at h2
        exact absurd h2 (by simp)
      apply iff_of_false
      · simp [checkOpsGo, hc, excBindError]
      · intro hall
        exact hnp (hall (name, failTest) (List.mem_cons_self _ _))
    | ok b =>
      cases b with
      | false =>
        have hnp : ¬ opPasses doc_value ops name failTest := by
          intro hp
          have h2 := (opCheck_ok_true_iff doc_value ops name failTest).mpr hp
          rw [hc] at h2
          exact absurd h2 (by simp)
        apply iff_of_false
        · simp [checkOpsGo, hc, excBindOk, excPure]
        · intro hall
          exact hnp (hall (name, failTest) (List.mem_cons_self _ _))
      | true =>
        have hp : opPasses doc_value ops name failTest :=
          (opCheck_ok_true_iff doc_value ops name failTest).mp hc
        have hstep : checkOpsGo doc_value ops ((name, failTest) :: rest) =
            checkOpsGo doc_value ops rest := by
          simp [checkOpsGo, hc, excBindOk]
        rw [hstep, ih]
        constructor
        · intro hrest s hs
          rcases List.mem_cons.mp hs with h | h
          · rw [h]
            exact hp
          · exact hrest s h
        · intro hall s hs
          exact hall s (List.mem_cons_of_mem _ hs)

theorem checkOps_ok_true_iff (doc_value : PyVal) (ops : List (String × PyVal)) :
    checkOps doc_value ops = .ok true ↔ valueMatches doc_value (.op ops) := by
  rw [checkOps, checkOpsGo_ok_true_iff]
  simp [opSpecs, valueMatches]

theorem matchesFilterGo_ok_true_iff (doc_metadata : Meta) (metadata_filter : MFilter) :
    matchesFilterGo doc_metadata metadata_filter = .ok true ↔
      filterAccepts doc_metadata metadata_filter := by
  induction metadata_filter with
  | nil => simp [matchesFilterGo, filterAccepts]
  | cons kv rest ih =>
    obtain ⟨filter_key, filter_value⟩ := kv
    simp only [filterAccepts, List.forall_mem_cons] at ih ⊢
    cases hg : dictGet? doc_metadata filter_key with
    | none =>
      apply iff_of_false
      · simp [matchesFilterGo, hg]
      · rintro ⟨⟨dv, hdv, -⟩, -⟩
        exact absurd hdv (by simp)
    | some doc_value =>
      cases filter_value with
      | op ops =>
        cases hc : checkOps doc_value ops with
        | error e =>
          apply iff_of_false
          · simp [matchesFilterGo, hg, hc, excBindError]
          · rintro ⟨⟨dv, hdv, hvm⟩, -⟩
            obtain rfl : doc_value = dv := Option.some.inj hdv
            have h2 := (checkOps_ok_true_iff doc_value ops).mpr hvm
            rw [hc] at h2
            exact absurd h2 (by simp)
        | ok b =>
          cases b with
          | false =>
            apply iff_of_false
            · simp [matchesFilterGo, hg, hc, excBindOk]
            · rintro ⟨⟨dv, hdv, hvm⟩, -⟩
              obtain rfl : doc_value = dv := Option.some.inj hdv
              have h2 := (checkOps_ok_true_iff doc_value ops).mpr hvm
              rw [hc] at h2
              exact absurd h2 (by simp)
          | true =>
            have hvm : valueMatches doc_value (.op ops) :=
              (checkOps_ok_true_iff doc_value ops).mp hc
            have hstep : matchesFilterGo doc_metadata ((filter_key, .op ops) :: rest) =
                matchesFilterGo doc_metadata rest := by
              simp [matchesFilterGo, hg, hc, excBindOk]
            rw [hstep, ih]
            constructor
            · intro hrest
              exact ⟨⟨doc_value, rfl, hvm⟩, hrest⟩
            · intro h
              exact h.2
      | plain v =>
        cases v with
        | num q =>
          by_cases he : PyVal.pyEq doc_value (.num q) = true
          · have hstep : matchesFilterGo doc_metadata
                ((filter_key, .plain (.num q)) :: rest) =
                matchesFilterGo doc_metadata rest := by
              simp [matchesFilterGo, hg, he]
            rw [hstep, ih]
            constructor
            · intro hrest
              exact ⟨⟨doc_value, rfl, he⟩, hrest⟩
            · intro h
              exact h.2
          · apply iff_of_false
            · simp [matchesFilterGo, hg, he]
            · rintro ⟨⟨dv, hdv, hvm⟩, -⟩
              obtain rfl : doc_value = dv := Option.some.inj hdv
              exact he hvm
        | str s =>
          by_cases he : PyVal.pyEq doc_value (.str s) = true
          · have hstep : matchesFilterGo doc_metadata
                ((filter_key, .plain (.str s)) :: rest) =
                matchesFilterGo doc_metadata rest := by
              simp [matchesFilterGo, hg, he]
            rw [hstep, ih]
            constructor
            · intro hrest
              exact ⟨⟨doc_value, rfl, he⟩, hrest⟩
            · intro h
              exact h.2
          · apply iff_of_false
            · simp [matchesFilterGo, hg, he]
            · rintro ⟨⟨dv, hdv, hvm⟩, -⟩
              obtain rfl : doc_value = dv := Option.some.inj hdv
              exact he hvm
        | list xs =>
          by_cases hm : PyVal.pyMem doc_value xs = true
          · have hstep : matchesFilterGo doc_metadata
                ((filter_key, .plain (.list xs)) :: rest) =
                matchesFilterGo doc_metadata rest := by
              simp [matchesFilterGo, hg, hm]
            rw [hstep, ih]
            constructor
            · intro hrest
              exact ⟨⟨doc_value, rfl, hm⟩, hrest⟩
            · intro h
              exact h.2
          · apply iff_of_false
            · simp [matchesFilterGo, hg, hm]
            · rintro ⟨⟨dv, hdv, hvm⟩, -⟩
              obtain rfl : doc_value = dv := Option.some.inj hdv
              exact hm hvm

/-! Error classification: every exception raised inside the scan loop of
`search` is a `TypeError` coming from a filter comparison. -/

theorem opCheck_error_shape {doc_value : PyVal} {ops : List (String × PyVal)}
    {name : String} {failTest : PyVal → PyVal → Option Bool} {e : PyErr}
    (h : opCheck doc_value ops name failTest = .error e) : ∃ m, e = .typeError m := by
  cases hg : dictGet? ops name with
  | none => simp [opCheck, hg] at h
  | some arg =>
    cases hf : failTest doc_value arg with
    | none =>
      simp only [opCheck, hg, hf, Except.error.injEq] at h
      exact ⟨_, h.symm⟩
    | some b => simp [opCheck, hg, hf] at h

theorem checkOpsGo_error_shape {doc_value : PyVal} {ops : List (String × PyVal)}
    {specs : List (String × (PyVal → PyVal → Option Bool))} {e : PyErr}
    (h : checkOpsGo doc_value ops specs = .error e) : ∃ m, e = .typeError m := by
  induction specs with
  | nil => simp [checkOpsGo] at h
  | cons s rest ih =>
    obtain ⟨name, failTest⟩ := s
    cases hc : opCheck doc_value ops name failTest with
    | error e2 =>
      simp only [checkOpsGo, hc, excBindError, Except.error.injEq] at h
      subst h
      exact opCheck_error_shape hc
    | ok b =>
      cases b with
      | false => simp [checkOpsGo, hc, excBindOk, excPure] at h
      | true =>
        have hstep : checkOpsGo doc_value ops ((name, failTest) :: rest) =
            checkOpsGo doc_value ops rest := by
          simp [checkOpsGo, hc, excBindOk]
        rw [hstep] at h
        exact ih h

theorem matchesFilterGo_error_shape {doc_metadata : Meta} {metadata_filter : MFilter}
    {e : PyErr} (h : matchesFilterGo doc_metadata metadata_filter = .error e) :
    ∃ m, e = .typeError m := by
  induction metadata_filter with
  | nil => simp [matchesFilterGo] at h
  | cons kv rest ih =>
    obtain ⟨filter_key, filter_value⟩ := kv
    cases hg : dictGet? doc_metadata filter_key with
    | none => simp [matchesFilterGo, hg] at h
    | some doc_value =>
      cases filter_value with
      | op ops =>
        cases hc : checkOps doc_value ops with
        | error e2 =>
          simp only [matchesFilterGo, hg, hc, excBindError, Except.error.injEq] at h
          subst h
          have hc2 : checkOpsGo doc_value ops opSpecs = .error e2 := hc
          exact checkOpsGo_error_shape hc2
        | ok b =>
          cases b with
          | true =>
            have hstep : matchesFilterGo doc_metadata ((filter_key, .op ops) :: rest) =
                matchesFilterGo doc_metadata rest := by
              simp [matchesFilterGo, hg, hc, excBindOk]
            rw [hstep] at h
            exact ih h
          | false =>
            have hstep : matchesFilterGo doc_metadata ((filter_key, .op ops) :: rest) =
                .ok false := by
              simp [matchesFilterGo, hg, hc, excBindOk]
            rw [hstep] at h
            exact absurd h (by simp)
      | plain v =>
        cases v with
        | num q =>
          cases he : PyVal.pyEq doc_value (.num q) with
          | true =>
            have hstep : matchesFilterGo doc_metadata
                ((filter_key, .plain (.num q)) :: rest) =
                matchesFilterGo doc_metadata rest := by
              simp [matchesFilterGo, hg, he]
            rw [hstep] at h
            exact ih h
          | false =>
            have hstep : matchesFilterGo doc_metadata
                ((filter_key, .plain (.num q)) :: rest) = .ok false := by
              simp [matchesFilterGo, hg, he]
            rw [hstep] at h
            exact absurd h (by simp)
        | str s =>
          cases he : PyVal.pyEq doc_value (.str s) with
          | true =>
            have hstep : matchesFilterGo doc_metadata
                ((filter_key, .plain (.str s)) :: rest) =
                matchesFilterGo doc_metadata rest := by
              simp [matchesFilterGo, hg, he]
            rw [hstep] at h
            exact ih h
          | false =>
            have hstep : matchesFilterGo doc_metadata
                ((filter_key, .plain (.str s)) :: rest) = .ok false := by
              simp [matchesFilterGo, hg, he]
            rw [hstep] at h
            exact absurd h (by simp)
        | list xs =>
          cases he : PyVal.pyMem doc_value xs with
          | true =>
            have hstep : matchesFilterGo doc_metadata
                ((filter_key, .plain (.list xs)) :: rest) =
                matchesFilterGo doc_metadata rest := by
              simp [matchesFilterGo, hg, he]
            rw [hstep] at h
            exact ih h
          | false =>
            have hstep : matchesFilterGo doc_metadata
                ((filter_key, .plain (.list xs)) :: rest) = .ok false := by
              simp [matchesFilterGo, hg, he]
            rw [hstep] at h
            exact absurd h (by simp)

theorem filterKeep_error_shape {db : EnhancedVectorDatabase} {key : String}
    {metadata_filter : Option MFilter} {e : PyErr}
    (h : filterKeep db key metadata_filter = .error e) : ∃ m, e = .typeError m := by
  cases metadata_filter with
  | none => simp [filterKeep] at h
  | some flt =>
    cases hemp : flt.isEmpty with
    | true => simp [filterKeep, hemp] at h
    | false =>
      simp only [filterKeep, hemp, Bool.false_eq_true, if_false] at h
      exact matchesFilterGo_error_shape h

theorem scoreEntries_error_shape {db : EnhancedVectorDatabase}
    {query_vector : List ℚ} {metadata_filter : Option MFilter}
    {distance_func : List ℚ → List ℚ → Score} {l : List (String × List ℚ)} {e : PyErr}
    (h : scoreEntries db query_vector metadata_filter distance_func l = .error e) :
    ∃ m, e = .typeError m := by
  induction l with
  | nil => simp [scoreEntries] at h
  | cons kv rest ih =>
    obtain ⟨key, vector⟩ := kv
    cases hk : filterKeep db key metadata_filter with
    | error e2 =>
      simp only [scoreEntries, hk, excBindError, Except.error.injEq] at h
      subst h
      exact filterKeep_error_shape hk
    | ok keep =>
      cases keep with
      | true =>
        cases hr : scoreEntries db query_vector metadata_filter distance_func rest with
        | error e3 =>
          simp only [scoreEntries, hk, excBindOk, if_true, hr, excBindError,
            Except.error.injEq] at h
          subst h
          exact ih hr
        | ok tail =>
          simp [scoreEntries, hk, excBindOk, hr] at h
      | false =>
        simp only [scoreEntries, hk, excBindOk, Bool.false_eq_true, if_false] at h
        exact ih h

/-- C2: `_matches_filter` returns true exactly when every filter key passes
on the document's metadata: the key must be present on the document, an
operator mapping applies each of `$gte`, `$lte`, `$gt`, `$lt`, `$in`, `$nin`
that is present as a range or membership test, a plain list value is a
membership test, and any other value is an exact equality test. -/
theorem matchesFilter_true_iff (db : EnhancedVectorDatabase) (key : String)
    (metadata_filter : MFilter) :
    db.matchesFilter key metadata_filter = .ok true ↔
      filterAccepts ((dictGet? db.metadata key).getD []) metadata_filter :=
  matchesFilterGo_ok_true_iff _ _

/-- C4: `search` fails with the `ValueError` naming the offending metric and
listing the valid names exactly when the metric name is unrecognized; for a
recognized metric this failure cannot occur. -/
theorem search_invalid_metric_iff (db : EnhancedVectorDatabase)
    (query_vector : List ℚ) (k : Nat) (distance_measure : String)
    (metadata_filter : Option MFilter) (return_scores : Bool) :
    db.search query_vector k distance_measure metadata_filter return_scores =
        .error (.valueError (unknownMetricMessage distance_measure)) ↔
      distance_measure ∉ availableMetricNames := by
  constructor
  · intro h hmem
    have hsome : ∃ f, dictGet? distance_metrics distance_measure = some f := by
      simp only [availableMetricNames, distance_metrics, List.map_cons, List.map_nil,
        List.mem_cons, List.not_mem_nil, or_false] at hmem
      rcases hmem with h1 | h1 | h1 | h1 <;> subst h1 <;> exact ⟨_, rfl⟩
    obtain ⟨f, hf⟩ := hsome
    unfold EnhancedVectorDatabase.search at h
    rw [hf] at h
    cases hs : scoreEntries db query_vector metadata_filter f db.vectors with
    | error e2 =>
      simp only [hs, excBindError, Except.error.injEq] at h
      obtain ⟨m, hm⟩ := scoreEntries_error_shape hs
      rw [h] at hm
      exact absurd hm (by simp)
    | ok scores =>
      simp only [hs, excBindOk] at h
      cases return_scores with
      | true => simp [excPure] at h
      | false => simp [excPure] at h
  · intro hnot
    have hnone : dictGet? distance_metrics distance_measure = none := by
      cases hg : dictGet? distance_metrics distance_measure with
      | none => rfl
      | some f => exact absurd (mem_of_dictGet?_isSome _ _ _ hg) hnot
    unfold EnhancedVectorDatabase.search
    rw [hnone]

/-- C8 counterexample: constructing the YouTube splitter with
`chunk_size = 100 ≤ 200 = chunk_overlap` does not fail, contrary to the
claim that both splitters validate at construction. -/
theorem youtube_init_accepts_overlap_ge_size :
    YouTubeTextSplitter.init 100 200 true =
      .ok { chunk_size := 100, chunk_overlap := 200, preserve_timestamps := true } ∧
    (100 : Nat) ≤ 200 := ⟨rfl, by norm_num⟩

/-- C8 amended: only `PDFTextSplitter` validates `chunk_size > chunk_overlap`
at construction (failing with `AssertionError` exactly when
`chunk_size ≤ chunk_overlap`); `YouTubeTextSplitter` construction always
succeeds. -/
theorem splitter_init_validation (chunk_size chunk_overlap : Nat)
    (preserve_page_info preserve_timestamps : Bool) :
    (chunk_size ≤ chunk_overlap ↔
      PDFTextSplitter.init chunk_size chunk_overlap preserve_page_info =
        .error (.assertionError "Chunk size must be greater than chunk overlap")) ∧
    (chunk_overlap < chunk_size ↔
      PDFTextSplitter.init chunk_size chunk_overlap preserve_page_info =
        .ok ⟨chunk_size, chunk_overlap, preserve_page_info⟩) ∧
    YouTubeTextSplitter.init chunk_size chunk_overlap preserve_timestamps =
      .ok ⟨chunk_size, chunk_overlap, preserve_timestamps⟩ := by
  refine ⟨?_, ?_, rfl⟩
  · by_cases h : chunk_overlap < chunk_size
    · exact iff_of_false (by omega) (by simp [PDFTextSplitter.init, h])
    · exact iff_of_true (by omega) (by simp [PDFTextSplitter.init, h])
  · by_cases h : chunk_overlap < chunk_size
    · exact iff_of_true h (by simp [PDFTextSplitter.init, h])
    · exact iff_of_false h (by simp [PDFTextSplitter.init, h])

/-- C9: `retrieve_from_key` on a key that is absent from both mappings
returns `(None, {})` without failing and leaves the store unchanged. -/
theorem retrieve_from_key_missing (db : EnhancedVectorDatabase) (key : String)
    (hv : dictGet? db.vectors key = none) (hm : dictGet? db.metadata key = none) :
    db.retrieve_from_key key = ((none, []), db) := by
  unfold EnhancedVectorDatabase.retrieve_from_key
  rw [hv, hm]
  rfl

/-- Witness for C9 at a concrete store and key. -/
theorem retrieve_from_key_missing_witness :
    dictGet? (EnhancedVectorDatabase.mk [("a", [1])] []).vectors "b" = none ∧
    dictGet? (EnhancedVectorDatabase.mk [("a", [1])] []).metadata "b" = none ∧
    (EnhancedVectorDatabase.mk [("a", [1])] []).retrieve_from_key "b" =
      ((none, []), EnhancedVectorDatabase.mk [("a", [1])] []) :=
  ⟨rfl, rfl, retrieve_from_key_missing _ _ rfl rfl⟩

/-- C3 counterexample: after inserting a key with metadata and then
re-inserting the same key with `metadata = None`, `retrieve_from_key`
returns the stale metadata rather than the claimed empty mapping (the
`if metadata:` guard skips the falsy argument). -/
theorem insert_overwrite_keeps_stale_metadata :
    ((((EnhancedVectorDatabase.mk [] []).insert "a" [1]
          (some [("x", PyVal.num 1)])).insert "a" [2] none).retrieve_from_key "a").1 =
      (some [2], [("x", PyVal.num 1)]) ∧
    ([("x", PyVal.num 1)] : Meta) ≠ [] := ⟨rfl, by simp⟩

/-- C3 amended: `insert` always overwrites the vector, and an immediate
`retrieve_from_key` returns the inserted vector; the metadata is replaced
only when the supplied metadata is truthy (present and non-empty), otherwise
the previous metadata (empty for a fresh key) is kept; the store is not
otherwise modified. -/
theorem insert_then_retrieve (db : EnhancedVectorDatabase) (key : String)
    (vector : List ℚ) (metadata : Option Meta) :
    ((db.insert key vector metadata).retrieve_from_key key).1.1 = some vector ∧
    ((db.insert key vector metadata).retrieve_from_key key).1.2 =
      (match metadata with
       | some m => if m.isEmpty then (dictGet? db.metadata key).getD [] else m
       | none => (dictGet? db.metadata key).getD []) ∧
    ((db.insert key vector metadata).retrieve_from_key key).2 =
      db.insert key vector metadata := by
  refine ⟨?_, ?_, rfl⟩
  · cases metadata with
    | none =>
      simp [EnhancedVectorDatabase.insert, EnhancedVectorDatabase.retrieve_from_key,
        dictGet?_dictSet_self]
    | some m =>
      cases hemp : m.isEmpty with
      | true =>
        simp [EnhancedVectorDatabase.insert, EnhancedVectorDatabase.retrieve_from_key,
          hemp, dictGet?_dictSet_self]
      | false =>
        simp [EnhancedVectorDatabase.insert, EnhancedVectorDatabase.retrieve_from_key,
          hemp, dictGet?_dictSet_self]
  · cases metadata with
    | none =>
      simp [EnhancedVectorDatabase.insert, EnhancedVectorDatabase.retrieve_from_key]
    | some m =>
      cases hemp : m.isEmpty with
      | true =>
        simp [EnhancedVectorDatabase.insert, EnhancedVectorDatabase.retrieve_from_key,
          hemp]
      | false =>
        simp [EnhancedVectorDatabase.insert, EnhancedVectorDatabase.retrieve_from_key,
          hemp, dictGet?_dictSet_self]

/-- C5: `update_metadata` raises `KeyError` exactly when the key has no
stored vector; on a present key it merges the new metadata into the existing
mapping: keys of the new metadata take their new values, all other keys keep
their old values, and other documents are untouched. -/
theorem update_metadata_spec (db : EnhancedVectorDatabase) (key : String)
    (new_metadata : Meta) (hnd : (new_metadata.map Prod.fst).Nodup) :
    (dictGet? db.vectors key = none →
      db.update_metadata key new_metadata =
        .error (.keyError (keyNotFoundMessage key))) ∧
    (∀ vec, dictGet? db.vectors key = some vec →
      ∃ db2, db.update_metadata key new_metadata = .ok db2 ∧
        db2.vectors = db.vectors ∧
        (∀ k2 v, dictGet? new_metadata k2 = some v →
          dictGet? ((dictGet? db2.metadata key).getD []) k2 = some v) ∧
        (∀ k2, dictGet? new_metadata k2 = none →
          dictGet? ((dictGet? db2.metadata key).getD []) k2 =
            dictGet? ((dictGet? db.metadata key).getD []) k2) ∧
        (∀ k2, k2 ≠ key → dictGet? db2.metadata k2 = dictGet? db.metadata k2)) := by
  constructor
  · intro hnone
    unfold EnhancedVectorDatabase.update_metadata
    simp [hnone]
  · intro vec hsome
    have hupd : db.update_metadata key new_metadata =
        .ok { db with
          metadata := dictSet db.metadata key
            (dictUpdate ((dictGet? db.metadata key).getD []) new_metadata) } := by
      unfold EnhancedVectorDatabase.update_metadata
      simp [hsome]
    refine ⟨_, hupd, rfl, ?_, ?_, ?_⟩
    · intro k2 v hv
      simp only [dictGet?_dictSet_self, Option.getD_some]
      exact dictGet?_dictUpdate_some _ _ _ _ hnd hv
    · intro k2 hv
      simp only [dictGet?_dictSet_self, Option.getD_some]
      exact dictGet?_dictUpdate_none _ _ _ hv
    · intro k2 hne
      exact dictGet?_dictSet_ne _ _ hne

/-- Witness for C5: the `KeyError` branch at a concrete store and key. -/
theorem update_metadata_spec_witness :
    ((([("y", PyVal.num 3), ("z", PyVal.num 4)] : Meta).map Prod.fst).Nodup) ∧
    dictGet? (EnhancedVectorDatabase.mk [] []).vectors "a" = none ∧
    (EnhancedVectorDatabase.mk [] []).update_metadata "a"
        [("y", PyVal.num 3), ("z", PyVal.num 4)] =
      .error (.keyError (keyNotFoundMessage "a")) :=
  ⟨by decide, rfl,
    (update_metadata_spec (EnhancedVectorDatabase.mk [] []) "a"
        [("y", PyVal.num 3), ("z", PyVal.num 4)] (by decide)).1 rfl⟩

mutual

/-- Serialization round-trip for one metadata value. -/
theorem jsonToPy_pyToJson : ∀ (v : PyVal), jsonToPy (pyToJson v) = .ok v
  | .num _ => rfl
  | .str _ => rfl
  | .list vs => by
    simp only [pyToJson, jsonToPy, jsonToPyList_pyToJsonList vs, excBindOk]

/-- Serialization round-trip for a list of metadata values. -/
theorem jsonToPyList_pyToJsonList : ∀ (vs : List PyVal),
    jsonToPyList (pyToJsonList vs) = .ok vs
  | [] => rfl
  | v :: rest => by
    simp only [pyToJsonList, jsonToPyList, jsonToPy_pyToJson v,
      jsonToPyList_pyToJsonList rest, excBindOk]

end

/-- Serialization round-trip for one metadata dictionary. -/
theorem jsonToMeta_metaToJson (m : Meta) : jsonToMeta (metaToJson m) = .ok m := by
  induction m with
  | nil => rfl
  | cons kv rest ih =>
    obtain ⟨k, v⟩ := kv
    simp only [metaToJson, jsonToMeta, List.map_cons, jsonToMetaFields] at ih ⊢
    simp [jsonToPy_pyToJson, excBindOk, ih]

/-- Serialization round-trip for one vector. -/
theorem jsonToVec_arr_num (v : List ℚ) :
    jsonToVec (.arr (v.map Json.num)) = .ok v := by
  induction v with
  | nil => rfl
  | cons q rest ih =>
    simp only [jsonToVec, List.map_cons, jsonToVecItems] at ih ⊢
    simp [excBindOk, ih]

theorem loadVectors_roundtrip (l : List (String × List ℚ)) :
    loadVectors (l.map (fun kv => (kv.1, Json.arr (kv.2.map Json.num)))) =
      Except.ok l := by
  induction l with
  | nil => rfl
  | cons kv rest ih =>
    obtain ⟨k, vec⟩ := kv
    simp only [List.map_cons, loadVectors]
    simp [jsonToVec_arr_num, excBindOk, ih]

theorem loadMetadata_roundtrip (l : List (String × Meta)) :
    loadMetadata (l.map (fun kv => (kv.1, metaToJson kv.2))) = Except.ok l := by
  induction l with
  | nil => rfl
  | cons kv rest ih =>
    obtain ⟨k, m⟩ := kv
    simp only [List.map_cons, loadMetadata]
    simp [jsonToMeta_metaToJson, excBindOk, ih]

/-- C6: `save_to_file` followed by `load_from_file` succeeds and reproduces
both the key-to-vector mapping and the key-to-metadata mapping exactly
(rational vectors round-trip without loss, so the floating-point tolerance
of the specification is met with equality). -/
theorem save_load_roundtrip (db : EnhancedVectorDatabase) :
    ∃ db2, EnhancedVectorDatabase.load_from_file db.save_to_file = .ok db2 ∧
      db2.vectors = db.vectors ∧ db2.metadata = db.metadata := by
  refine ⟨db, ?_, rfl, rfl⟩
  have hne : ¬(("vectors" : String) = "metadata") := by decide
  unfold EnhancedVectorDatabase.save_to_file EnhancedVectorDatabase.load_from_file
  simp only [dictGet?, if_pos, hne, if_false, eq_self_iff_true, if_true, excBindOk,
    loadVectors_roundtrip, loadMetadata_roundtrip, excPure]

theorem pdf_split_length (sp : PDFTextSplitter) (text : List Char) (md : Option Meta) :
    (sp.split text md).length =
      (text.length + (sp.chunk_size - sp.chunk_overlap) - 1) /
        (sp.chunk_size - sp.chunk_overlap) := by
  simp [PDFTextSplitter.split, rangeStep, List.enum_length, List.length_range]

theorem pdf_split_getElem?_eq (sp : PDFTextSplitter) (text : List Char) (md : Option Meta)
    (i : Nat) (hi : i < (sp.split text md).length) :
    ∃ c, (sp.split text md)[i]? = some c ∧
      c.text = (text.drop (i * (sp.chunk_size - sp.chunk_overlap))).take sp.chunk_size := by
  refine ⟨(sp.split text md)[i], List.getElem?_eq_getElem hi, ?_⟩
  simp only [PDFTextSplitter.split, rangeStep, List.getElem_map, List.getElem_enum,
    List.getElem_range]

theorem pdf_split_mem_text (sp : PDFTextSplitter) (text : List Char) (md : Option Meta)
    (c : Chunk) (h : c ∈ sp.split text md) :
    ∃ s, c.text = (text.drop s).take sp.chunk_size := by
  simp only [PDFTextSplitter.split, List.mem_map] at h
  obtain ⟨p, -, rfl⟩ := h
  exact ⟨p.2, rfl⟩

/-- C7: with `chunk_size = 1000` and `chunk_overlap = 200`, `split` produces
`⌈L/800⌉` chunks; chunk `i` is the substring of the text starting at offset
`i·800` of length at most 1000; and each pair of successive chunks that does
not involve the final chunk overlaps in exactly 200 characters (the suffix
of length 200 of one chunk is the prefix of length 200 of the next). -/
theorem pdf_split_1000_200_spec (text : List Char) (htext : text ≠ []) :
    ((⟨1000, 200, true⟩ : PDFTextSplitter).split text none).length =
        (text.length + 799) / 800 ∧
    (∀ (i : Nat) (c : Chunk),
        ((⟨1000, 200, true⟩ : PDFTextSplitter).split text none)[i]? = some c →
        c.text = (text.drop (i * 800)).take 1000) ∧
    (∀ c ∈ (⟨1000, 200, true⟩ : PDFTextSplitter).split text none,
        c.text.length ≤ 1000) ∧
    (∀ (i : Nat), i + 2 < (text.length + 799) / 800 →
      ∃ c1 c2,
        ((⟨1000, 200, true⟩ : PDFTextSplitter).split text none)[i]? = some c1 ∧
        ((⟨1000, 200, true⟩ : PDFTextSplitter).split text none)[i + 1]? = some c2 ∧
        c1.text.drop 800 = c2.text.take 200 ∧
        (c1.text.drop 800).length = 200) := by
  have hlen : ((⟨1000, 200, true⟩ : PDFTextSplitter).split text none).length =
      (text.length + 799) / 800 := by
    simpa using pdf_split_length ⟨1000, 200, true⟩ text none
  refine ⟨hlen, ?_, ?_, ?_⟩
  · intro i c h
    have hi : i < ((⟨1000, 200, true⟩ : PDFTextSplitter).split text none).length := by
      by_contra h2
      rw [List.getElem?_eq_none (le_of_not_lt h2)] at h
      exact absurd h (by simp)
    obtain ⟨c2, hc2, htext2⟩ := pdf_split_getElem?_eq ⟨1000, 200, true⟩ text none i hi
    rw [h] at hc2
    obtain rfl : c = c2 := Option.some.inj hc2
    simpa using htext2
  · intro c hc
    obtain ⟨s, hs⟩ := pdf_split_mem_text ⟨1000, 200, true⟩ text none c hc
    rw [hs]
    exact List.length_take_le 1000 (text.drop s)
  · intro i hi
    have hL : 800 * i + 1601 ≤ text.length := by
      have h3 : i + 3 ≤ (text.length + 799) / 800 := hi
      have h4 : (i + 3) * 800 ≤ text.length + 799 :=
        (Nat.le_div_iff_mul_le (by norm_num)).mp h3
      omega
    have hi1 : i < ((⟨1000, 200, true⟩ : PDFTextSplitter).split text none).length := by
      rw [hlen]; omega
    have hi2 : i + 1 < ((⟨1000, 200, true⟩ : PDFTextSplitter).split text none).length := by
      rw [hlen]; omega
    obtain ⟨c1, hc1, htext1⟩ := pdf_split_getElem?_eq ⟨1000, 200, true⟩ text none i hi1
    obtain ⟨c2, hc2, htext2⟩ := pdf_split_getElem?_eq ⟨1000, 200, true⟩ text none (i + 1) hi2
    refine ⟨c1, c2, hc1, hc2, ?_, ?_⟩
    · rw [htext1, htext2]
      have harith : i * 800 + 800 = (i + 1) * 800 := by ring
      simp only [show (1000 : Nat) - 200 = 800 from rfl]
      rw [List.drop_take, List.drop_drop, List.take_take, harith]
      norm_num
    · rw [htext1]
      simp only [show (1000 : Nat) - 200 = 800 from rfl, List.length_drop,
        List.length_take, List.length_drop]
      omega

/-- Witness for C7 on a concrete non-empty text. -/
theorem pdf_split_1000_200_spec_witness :
    (('a' :: 'b' :: 'c' :: []) ≠ ([] : List Char)) ∧
    (((⟨1000, 200, true⟩ : PDFTextSplitter).split ('a' :: 'b' :: 'c' :: []) none).length =
        ((('a' :: 'b' :: 'c' :: []) : List Char).length + 799) / 800 ∧
      (∀ (i : Nat) (c : Chunk),
          ((⟨1000, 200, true⟩ : PDFTextSplitter).split ('a' :: 'b' :: 'c' :: []) none)[i]? =
            some c →
          c.text = ((('a' :: 'b' :: 'c' :: []) : List Char).drop (i * 800)).take 1000) ∧
      (∀ c ∈ (⟨1000, 200, true⟩ : PDFTextSplitter).split ('a' :: 'b' :: 'c' :: []) none,
          c.text.length ≤ 1000) ∧
      (∀ (i : Nat),
          i + 2 < ((('a' :: 'b' :: 'c' :: []) : List Char).length + 799) / 800 →
        ∃ c1 c2,
          ((⟨1000, 200, true⟩ : PDFTextSplitter).split ('a' :: 'b' :: 'c' :: []) none)[i]? =
            some c1 ∧
          ((⟨1000, 200, true⟩ : PDFTextSplitter).split
              ('a' :: 'b' :: 'c' :: []) none)[i + 1]? = some c2 ∧
          c1.text.drop 800 = c2.text.take 200 ∧
          (c1.text.drop 800).length = 200)) :=
  ⟨by simp, pdf_split_1000_200_spec ('a' :: 'b' :: 'c' :: []) (by simp)⟩

/-- C10: `search` never modifies the store: whenever it succeeds, the store
it returns is the store it was given. -/
theorem search_readonly (db : EnhancedVectorDatabase) (query_vector : List ℚ) (k : Nat)
    (distance_measure : String) (metadata_filter : Option MFilter) (return_scores : Bool)
    (out : SearchOutput) (db2 : EnhancedVectorDatabase)
    (h : db.search query_vector k distance_measure metadata_filter return_scores =
      .ok (out, db2)) :
    db2 = db := by
  unfold EnhancedVectorDatabase.search at h
  cases hg : dictGet? distance_metrics distance_measure with
  | none => simp [hg] at h
  | some distance_func =>
    simp only [hg] at h
    cases hs : scoreEntries db query_vector metadata_filter distance_func db.vectors with
    | error e => simp [hs, excBindError] at h
    | ok scores =>
      simp only [hs, excBindOk] at h
      cases return_scores with
      | true =>
        simp only [if_true, excPure, Except.ok.injEq, Prod.mk.injEq] at h
        exact h.2.symm
      | false =>
        simp only [Bool.false_eq_true, if_false, excPure, Except.ok.injEq,
          Prod.mk.injEq] at h
        exact h.2.symm

/-- Witness for C10 at a concrete store and query. -/
theorem search_readonly_witness :
    (EnhancedVectorDatabase.mk [] []).search [] 0 "cosine" none true =
      .ok (.withScores [], EnhancedVectorDatabase.mk [] []) ∧
    EnhancedVectorDatabase.mk [] [] = EnhancedVectorDatabase.mk [] [] :=
  ⟨rfl, search_readonly (EnhancedVectorDatabase.mk [] []) [] 0 "cosine" none true
    (.withScores []) (EnhancedVectorDatabase.mk [] []) rfl⟩

/-- The entries that `search` is required to score: every stored
(key, vector) pair that the filter keeps, scored against the query, paired
with the document's metadata. -/
def scoredOf (db : EnhancedVectorDatabase) (query_vector : List ℚ)
    (metadata_filter : Option MFilter) (distance_func : List ℚ → List ℚ → Score)
    (l : List (String × List ℚ)) : List (String × Score × Meta) :=
  l.filterMap (fun kv =>
    match filterKeep db kv.1 metadata_filter with
    | .ok true =>
      some (kv.1, distance_func query_vector kv.2, (dictGet? db.metadata kv.1).getD [])
    | _ => none)

theorem scoreEntries_ok_eq {db : EnhancedVectorDatabase} {query_vector : List ℚ}
    {metadata_filter : Option MFilter} {distance_func : List ℚ → List ℚ → Score}
    {l : List (String × List ℚ)} {entries : List (String × Score × Meta)}
    (h : scoreEntries db query_vector metadata_filter distance_func l = .ok entries) :
    entries = scoredOf db query_vector metadata_filter distance_func l := by
  induction l generalizing entries with
  | nil =>
    simp only [scoreEntries, Except.ok.injEq] at h
    subst h
    rfl
  | cons kv rest ih =>
    obtain ⟨key, vector⟩ := kv
    cases hk : filterKeep db key metadata_filter with
    | error e => simp [scoreEntries, hk, excBindError] at h
    | ok keep =>
      cases keep with
      | true =>
        cases hr : scoreEntries db query_vector metadata_filter distance_func rest with
        | error e => simp [scoreEntries, hk, excBindOk, hr, excBindError] at h
        | ok tail =>
          simp only [scoreEntries, hk, excBindOk, if_true, hr, Except.ok.injEq] at h
          subst h
          rw [ih hr]
          simp [scoredOf, List.filterMap_cons, hk]
      | false =>
        simp only [scoreEntries, hk, excBindOk, Bool.false_eq_true, if_false] at h
        rw [ih h]
        simp [scoredOf, List.filterMap_cons, hk]

theorem searchLeB_total_or (reverse_sort : Bool) (x y : String × Score × Meta) :
    searchLeB reverse_sort x y = true ∨ searchLeB reverse_sort y x = true := by
  cases reverse_sort with
  | false =>
    have h := Score.leB_total x.2.1 y.2.1
    rw [Bool.or_eq_true] at h
    simpa [searchLeB] using h
  | true =>
    have h := Score.leB_total y.2.1 x.2.1
    rw [Bool.or_eq_true] at h
    simpa [searchLeB] using h

theorem searchLeB_trans2 (reverse_sort : Bool) {x y z : String × Score × Meta}
    (h1 : searchLeB reverse_sort x y = true) (h2 : searchLeB reverse_sort y z = true) :
    searchLeB reverse_sort x z = true := by
  cases reverse_sort with
  | false =>
    simp only [searchLeB, Bool.false_eq_true, if_false] at h1 h2 ⊢
    exact Score.leB_trans h1 h2
  | true =>
    simp only [searchLeB, if_true] at h1 h2 ⊢
    exact Score.leB_trans h2 h1

/-- C1: for a recognized metric, when the scan succeeds `search` scores
exactly the stored vectors the filter keeps (`scoredOf`), sorts them by
score — descending for cosine and dot product, ascending for euclidean and
manhattan — and returns the first `k` (key, score, metadata) triples, or the
corresponding (key, metadata) pairs when scores are suppressed; it returns
`min k (number of matches)` results, and a `k` at or beyond the store size
returns all matches. -/
theorem search_spec (db : EnhancedVectorDatabase) (query_vector : List ℚ) (k : Nat)
    (distance_measure : String) (metadata_filter : Option MFilter)
    (distance_func : List ℚ → List ℚ → Score)
    (hdm : dictGet? distance_metrics distance_measure = some distance_func)
    (entries : List (String × Score × Meta))
    (hentries : scoreEntries db query_vector metadata_filter distance_func db.vectors =
      .ok entries) :
    ∃ results tail,
      db.search query_vector k distance_measure metadata_filter true =
        .ok (.withScores results, db) ∧
      db.search query_vector k distance_measure metadata_filter false =
        .ok (.keysOnly (results.map (fun r => (r.1, r.2.2))), db) ∧
      entries = scoredOf db query_vector metadata_filter distance_func db.vectors ∧
      results.length = min k entries.length ∧
      (results ++ tail).Perm entries ∧
      (db.vectors.length ≤ k → results.Perm entries) ∧
      ((distance_measure = "cosine" ∨ distance_measure = "dot_product") →
        List.Sorted (fun x y : String × Score × Meta => (y.2.1).val ≤ (x.2.1).val)
          (results ++ tail)) ∧
      ((distance_measure = "euclidean" ∨ distance_measure = "manhattan") →
        List.Sorted (fun x y : String × Score × Meta => (x.2.1).val ≤ (y.2.1).val)
          (results ++ tail)) := by
  refine ⟨(List.insertionSort
      (fun x y => searchLeB (["cosine", "dot_product"].contains distance_measure) x y = true)
      entries).take k,
    (List.insertionSort
      (fun x y => searchLeB (["cosine", "dot_product"].contains distance_measure) x y = true)
      entries).drop k,
    ?_, ?_, scoreEntries_ok_eq hentries, ?_, ?_, ?_, ?_, ?_⟩
  · unfold EnhancedVectorDatabase.search
    simp only [hdm, hentries, excBindOk, if_true, excPure]
  · unfold EnhancedVectorDatabase.search
    simp only [hdm, hentries, excBindOk, Bool.false_eq_true, if_false, excPure]
  · rw [List.length_take, List.length_insertionSort]
  · rw [List.take_append_drop]
    exact List.perm_insertionSort _ _
  · intro hk
    have hle : entries.length ≤ db.vectors.length := by
      rw [scoreEntries_ok_eq hentries]
      exact List.length_filterMap_le _ _
    have htake : (List.insertionSort
        (fun x y => searchLeB (["cosine", "dot_product"].contains distance_measure) x y =
          true) entries).take k =
        List.insertionSort
          (fun x y => searchLeB (["cosine", "dot_product"].contains distance_measure) x y =
            true) entries := by
      apply List.take_of_length_le
      rw [List.length_insertionSort]
      omega
    rw [htake]
    exact List.perm_insertionSort _ _
  · intro hcase
    have hrev : (["cosine", "dot_product"].contains distance_measure) = true := by
      rcases hcase with rfl | rfl <;> rfl
    rw [List.take_append_drop]
    simp only [hrev]
    have hsorted : List.Sorted (fun x y => searchLeB true x y = true)
        (List.insertionSort (fun x y => searchLeB true x y = true) entries) := by
      haveI : IsTotal (String × Score × Meta) (fun x y => searchLeB true x y = true) :=
        ⟨searchLeB_total_or true⟩
      haveI : IsTrans (String × Score × Meta) (fun x y => searchLeB true x y = true) :=
        ⟨fun _ _ _ h1 h2 => searchLeB_trans2 true h1 h2⟩
      exact List.sorted_insertionSort _ _
    refine hsorted.imp ?_
    intro a b hab
    simp only [searchLeB, if_true] at hab
    exact (Score.leB_iff _ _).mp hab
  · intro hcase
    have hrev : (["cosine", "dot_product"].contains distance_measure) = false := by
      rcases hcase with rfl | rfl <;> rfl
    rw [List.take_append_drop]
    simp only [hrev]
    have hsorted : List.Sorted (fun x y => searchLeB false x y = true)
        (List.insertionSort (fun x y => searchLeB false x y = true) entries) := by
      haveI : IsTotal (String × Score × Meta) (fun x y => searchLeB false x y = true) :=
        ⟨searchLeB_total_or false⟩
      haveI : IsTrans (String × Score × Meta) (fun x y => searchLeB false x y = true) :=
        ⟨fun _ _ _ h1 h2 => searchLeB_trans2 false h1 h2⟩
      exact List.sorted_insertionSort _ _
    refine hsorted.imp ?_
    intro a b hab
    simp only [searchLeB, Bool.false_eq_true, if_false] at hab
    exact (Score.leB_iff _ _).mp hab

/-- Witness for C1 at a concrete two-entry store, `dot_product` metric,
no filter, and `k = 1`. -/
theorem search_spec_witness :
    dictGet? distance_metrics "dot_product" = some dot_product_similarity ∧
    scoreEntries (EnhancedVectorDatabase.mk [("a", [1]), ("b", [2])] []) [1] none
        dot_product_similarity
        (EnhancedVectorDatabase.mk [("a", [1]), ("b", [2])] []).vectors =
      .ok [("a", dot_product_similarity [1] [1], []),
           ("b", dot_product_similarity [1] [2], [])] ∧
    (∃ results tail,
      (EnhancedVectorDatabase.mk [("a", [1]), ("b", [2])] []).search [1] 1 "dot_product"
          none true =
        .ok (.withScores results, EnhancedVectorDatabase.mk [("a", [1]), ("b", [2])] []) ∧
      (EnhancedVectorDatabase.mk [("a", [1]), ("b", [2])] []).search [1] 1 "dot_product"
          none false =
        .ok (.keysOnly (results.map (fun r => (r.1, r.2.2))),
          EnhancedVectorDatabase.mk [("a", [1]), ("b", [2])] []) ∧
      ([("a", dot_product_similarity [1] [1], []),
        ("b", dot_product_similarity [1] [2], [])] : List (String × Score × Meta)) =
        scoredOf (EnhancedVectorDatabase.mk [("a", [1]), ("b", [2])] []) [1] none
          dot_product_similarity
          (EnhancedVectorDatabase.mk [("a", [1]), ("b", [2])] []).vectors ∧
      results.length =
        min 1 ([("a", dot_product_similarity [1] [1], []),
                ("b", dot_product_similarity [1] [2], [])] :
            List (String × Score × Meta)).length ∧
      (results ++ tail).Perm
        [("a", dot_product_similarity [1] [1], []),
         ("b", dot_product_similarity [1] [2], [])] ∧
      ((EnhancedVectorDatabase.mk [("a", [1]), ("b", [2])] []).vectors.length ≤ 1 →
        results.Perm
          [("a", dot_product_similarity [1] [1], []),
           ("b", dot_product_similarity [1] [2], [])]) ∧
      ((("dot_product" : String) = "cosine" ∨ ("dot_product" : String) = "dot_product") →
        List.Sorted (fun x y : String × Score × Meta => (y.2.1).val ≤ (x.2.1).val)
          (results ++ tail)) ∧
      ((("dot_product" : String) = "euclidean" ∨ ("dot_product" : String) = "manhattan") →
        List.Sorted (fun x y : String × Score × Meta => (x.2.1).val ≤ (y.2.1).val)
          (results ++ tail))) :=
  ⟨rfl, rfl,
    search_spec (EnhancedVectorDatabase.mk [("a", [1]), ("b", [2])] []) [1] 1
      "dot_product" none dot_product_similarity rfl
      [("a", dot_product_similarity [1] [1], []),
       ("b", dot_product_similarity [1] [2], [])] rfl⟩
